import Mathlib

/-!
Verification of the training harness in main.py
(repository DiffusionModel_SentimentAnalysis_SST2).

The file shallowly embeds the Instructor class: the best-snapshot update
of Instructor.run, the per-batch accumulation of Instructor._train and
Instructor._test, the model/method dispatch of Instructor.__init__, and
the epoch loop of Instructor.run.  Python floats are modelled as
rationals; a ZeroDivisionError is modelled as an Option result of none;
side effects (device moves, optimizer calls, logging, plotting) are
recorded in an explicit event trace.
-/

namespace SST2

/-- Best-snapshot update from Instructor.run (main.py lines 102-107):
the stored pair (best_acc, best_loss) is replaced by the epoch result
(test_acc, test_loss) when test_acc > best_acc or
(test_acc == best_acc and test_loss < best_loss).
Pairs are (accuracy, loss). -/
def updateBest (b r : ℚ × ℚ) : ℚ × ℚ :=
  if r.1 > b.1 ∨ (r.1 = b.1 ∧ r.2 < b.2) then r else b

/-- Best snapshot after a whole run: the fold of updateBest over the
per-epoch (test_acc, test_loss) results, starting from the code's
initialization best_loss, best_acc = 0, 0 (main.py line 102). -/
def bestSnapshot (rs : List (ℚ × ℚ)) : ℚ × ℚ :=
  rs.foldl updateBest (0, 0)

/-- Modelled from the spec: the result of the sequence with the maximum
test accuracy, ties broken by the minimum test loss (spec section 3 and
section 8, Best Snapshot update rule).  Unlike bestSnapshot this has no
artificial (0, 0) seed; it is none on the empty sequence. -/
def specBest : List (ℚ × ℚ) → Option (ℚ × ℚ)
  | [] => none
  | r :: rs => some (rs.foldl updateBest r)

/-- Index of the first maximal entry of a row of logits, as computed by
torch.argmax(predicts, dim=1) on one row.  Helper carrying the index of
the current element and the best (index, value) so far. -/
def argmaxAux : List ℚ → ℕ → ℕ → ℚ → ℕ
  | [], _, bi, _ => bi
  | x :: xs, i, bi, bv =>
    if bv < x then argmaxAux xs (i + 1) i x else argmaxAux xs (i + 1) bi bv

/-- Row-wise argmax of a logit row; 0 on an empty row. -/
def argmax : List ℚ → ℕ
  | [] => 0
  | x :: xs => argmaxAux xs 1 0 x

/-- Number of correct predictions in one batch:
(torch.argmax(predicts, dim=1) == targets).sum().item()
(main.py lines 60 and 77).  predicts is the list of logit rows, targets
the list of integer class labels. -/
def countCorrect (predicts : List (List ℚ)) (targets : List ℕ) : ℕ :=
  ((predicts.zip targets).filter (fun pt => argmax pt.1 == pt.2)).length

theorem countCorrect_le (predicts : List (List ℚ)) (targets : List ℕ) :
    countCorrect predicts targets ≤ targets.length := by
  calc countCorrect predicts targets
      ≤ (predicts.zip targets).length := List.length_filter_le _ _
    _ ≤ targets.length := by
        rw [List.length_zip]; exact Nat.min_le_right _ _

/-- Learning-rate scheduler state built by get_linear_schedule_with_warmup
in Instructor.run (main.py lines 96-100): the construction arguments
num_warmup_steps and num_training_steps, and the number of times
scheduler.step() has been called so far. -/
structure Scheduler where
  warmup : ℚ
  total : ℕ
  count : ℕ
  deriving Repr, DecidableEq

/-- Mutable state threaded through the training and evaluation loops:
the trainable parameters, the gradient buffers held by the optimizer,
the module train/eval mode flag (self.model.train() / self.model.eval()),
and the scheduler. P is the type of parameter values and G the type of
gradient-buffer values; both are abstract. -/
structure MState (P G : Type) where
  params : P
  grads : G
  training : Bool
  sched : Scheduler

/-- External collaborators of the loops, abstracted exactly at the call
boundaries of main.py: moving a batch of inputs to the device, the model
forward pass (reading the parameters and the train/eval flag), the
cross-entropy criterion producing a scalar loss, the gradient of the
loss at the current parameters (loss.backward()), gradient-buffer
accumulation and zeroing (optimizer.zero_grad()), and the optimizer
update (optimizer.step(), reading the scheduler step count through the
learning rate). -/
structure Env (I P G : Type) where
  toDevice : I → I
  forward : P → Bool → I → List (List ℚ)
  criterion : List (List ℚ) → List ℕ → ℚ
  grad : P → ℚ → G
  addGrad : G → G → G
  zeroG : G
  stepP : P → G → ℕ → P

/-- Events recorded by the embedding, one per side-effecting statement of
main.py. -/
inductive Ev where
  | toDevice
  | forward
  | lossComp
  | zeroGrad
  | backward
  | optStep
  | schedStep
  | accum
  | loadData
  | logEpoch (epoch : ℕ)
  | logTrain (loss acc : ℚ)
  | logTest (loss acc : ℚ)
  | logBest (loss acc : ℚ)
  | logSaved
  | plot (pts : List (ℕ × ℚ))
  | savefig (name : String)
  | showPlot
  | saveModel (name : String)
  deriving Repr, DecidableEq

/-- Events whose effect is to persist data to the filesystem. -/
def Ev.isPersist : Ev → Bool
  | .savefig _ => true
  | .saveModel _ => true
  | _ => false

/-- Body of the training loop for one batch (main.py lines 48-61):
move the inputs and targets to the device, forward, cross-entropy loss,
optimizer.zero_grad(), loss.backward(), optimizer.step(),
scheduler.step(), then the accumulator updates.  Returns the new state,
the raw scalar loss, the correct count and the batch size for the
accumulators, and the event trace of the batch. -/
def trainBatch {I P G : Type} (env : Env I P G) (st : MState P G)
    (batch : I × List ℕ) : MState P G × (ℚ × ℕ × ℕ) × List Ev :=
  let inputs := env.toDevice batch.1
  let targets := batch.2
  let predicts := env.forward st.params st.training inputs
  let loss := env.criterion predicts targets
  let grads1 := env.zeroG
  let grads2 := env.addGrad grads1 (env.grad st.params loss)
  let params2 := env.stepP st.params grads2 st.sched.count
  let sched2 := { st.sched with count := st.sched.count + 1 }
  (⟨params2, grads2, st.training, sched2⟩,
   (loss, countCorrect predicts targets, targets.length),
   [.toDevice, .forward, .lossComp, .zeroGrad, .backward, .optStep,
    .schedStep, .accum])

/-- Accumulating fold over the batch stream of one training pass,
threading (train_loss, n_correct, n_train) exactly as the loop body of
Instructor._train does: train_loss += loss.item() * targets.size(0),
n_correct += correct, n_train += targets.size(0). -/
def trainFold {I P G : Type} (env : Env I P G) :
    MState P G → ℚ × ℕ × ℕ → List (I × List ℕ) →
    MState P G × (ℚ × ℕ × ℕ) × List Ev
  | st, acc, [] => (st, acc, [])
  | st, acc, b :: bs =>
    let r := trainBatch env st b
    let loss := r.2.1.1
    let correct := r.2.1.2.1
    let size := r.2.1.2.2
    let acc' := (acc.1 + loss * size, acc.2.1 + correct, acc.2.2 + size)
    let rest := trainFold env r.1 acc' bs
    (rest.1, rest.2.1, r.2.2 ++ rest.2.2)

/-- One full training pass, Instructor._train (main.py lines 44-63):
set the model to training mode, fold the loop body over the batch
stream, then return train_loss / n_train and n_correct / n_train.  The
final division raises ZeroDivisionError when n_train is 0, modelled by
a result of none. -/
def trainPass {I P G : Type} (env : Env I P G) (st : MState P G)
    (dataloader : List (I × List ℕ)) :
    MState P G × Option (ℚ × ℚ) × List Ev :=
  let st0 := { st with training := true }
  let r := trainFold env st0 (0, 0, 0) dataloader
  let fin := r.2.1
  let res : Option (ℚ × ℚ) :=
    if fin.2.2 = 0 then none
    else some (fin.1 / (fin.2.2 : ℚ), (fin.2.1 : ℚ) / (fin.2.2 : ℚ))
  (r.1, res, r.2.2)

/-- Body of the evaluation loop for one batch (main.py lines 70-78):
inside torch.no_grad(), move the batch to the device, forward, loss,
then the accumulator updates.  No gradient, optimizer or scheduler call
appears in the source, so the state is returned unchanged. -/
def testBatch {I P G : Type} (env : Env I P G) (st : MState P G)
    (batch : I × List ℕ) : MState P G × (ℚ × ℕ × ℕ) × List Ev :=
  let inputs := env.toDevice batch.1
  let targets := batch.2
  let predicts := env.forward st.params st.training inputs
  let loss := env.criterion predicts targets
  (st, (loss, countCorrect predicts targets, targets.length),
   [.toDevice, .forward, .lossComp, .accum])

/-- Accumulating fold of the evaluation loop, threading
(test_loss, n_correct, n_test) as Instructor._test does. -/
def testFold {I P G : Type} (env : Env I P G) :
    MState P G → ℚ × ℕ × ℕ → List (I × List ℕ) →
    MState P G × (ℚ × ℕ × ℕ) × List Ev
  | st, acc, [] => (st, acc, [])
  | st, acc, b :: bs =>
    let r := testBatch env st b
    let loss := r.2.1.1
    let correct := r.2.1.2.1
    let size := r.2.1.2.2
    let acc' := (acc.1 + loss * size, acc.2.1 + correct, acc.2.2 + size)
    let rest := testFold env r.1 acc' bs
    (rest.1, rest.2.1, r.2.2 ++ rest.2.2)

/-- One full evaluation pass, Instructor._test (main.py lines 65-80):
set the model to evaluation mode, fold the loop body with gradients
disabled, then return test_loss / n_test and n_correct / n_test; the
division raises ZeroDivisionError when n_test is 0, modelled by none. -/
def testPass {I P G : Type} (env : Env I P G) (st : MState P G)
    (dataloader : List (I × List ℕ)) :
    MState P G × Option (ℚ × ℚ) × List Ev :=
  let st0 := { st with training := false }
  let r := testFold env st0 (0, 0, 0) dataloader
  let fin := r.2.1
  let res : Option (ℚ × ℚ) :=
    if fin.2.2 = 0 then none
    else some (fin.1 / (fin.2.2 : ℚ), (fin.2.1 : ℚ) / (fin.2.2 : ℚ))
  (r.1, res, r.2.2)

/-- Model construction from Instructor.__init__ (main.py lines 18-32):
dispatch on model_name to choose the pretrained checkpoint, then on
method_name to choose the head variant; any other value raises
ValueError immediately.  The result records the chosen checkpoint name
and head variant. -/
def instructorInit (model_name method_name : String) :
    Except String (String × String) := do
  let checkpoint ←
    if model_name = "bert" then pure "bert-base-uncased"
    else if model_name = "roberta" then pure "roberta-base"
    else Except.error "unknown model"
  let head ←
    if method_name = "fnn" then pure "fnn"
    else if method_name = "lstm" then pure "lstm"
    else Except.error "unknown method"
  pure (checkpoint, head)

/-- Loop-carried state of Instructor.run (main.py lines 102-110): the
machine state, the best snapshot as (best_acc, best_loss), and the two
plot lists l_epo and l_acc. -/
structure LoopSt (P G : Type) where
  mst : MState P G
  best : ℚ × ℚ
  l_epo : List ℕ
  l_acc : List ℚ

/-- Epoch loop of Instructor.run (main.py lines 104-117): for each epoch
run one training pass and one evaluation pass, append (epoch, test_acc)
to the plot lists, update the best snapshot, and log the three progress
lines.  A ZeroDivisionError inside a pass (result none) aborts the run:
the returned Bool is true when the loop crashed. -/
def epochLoop {I P G : Type} (env : Env I P G)
    (train_dl test_dl : List (I × List ℕ)) :
    List ℕ → LoopSt P G → LoopSt P G × List Ev × Bool
  | [], s => (s, [], false)
  | epoch :: es, s =>
    let tr := trainPass env s.mst train_dl
    match tr.2.1 with
    | none => ({ s with mst := tr.1 }, tr.2.2, true)
    | some (train_loss, train_acc) =>
      let te := testPass env tr.1 test_dl
      match te.2.1 with
      | none => ({ s with mst := te.1 }, tr.2.2 ++ te.2.2, true)
      | some (test_loss, test_acc) =>
        let s' : LoopSt P G :=
          { mst := te.1
            best := updateBest s.best (test_acc, test_loss)
            l_epo := s.l_epo ++ [epoch]
            l_acc := s.l_acc ++ [test_acc] }
        let evs := tr.2.2 ++ te.2.2 ++
          [.logEpoch epoch, .logTrain train_loss train_acc,
           .logTest test_loss test_acc]
        let rest := epochLoop env train_dl test_dl es s'
        (rest.1, evs ++ rest.2.1, rest.2.2)

/-- Initial loop-carried state of Instructor.run (main.py lines 96-103):
scheduler built with num_warmup_steps = 0.1 * len(train_dataloader) and
num_training_steps = len(train_dataloader) * num_epoch, best snapshot
initialized by best_loss, best_acc = 0, 0, and empty plot lists. -/
def runStart {P G : Type} (tdl_len num_epoch : ℕ) (p : P) (g : G) :
    LoopSt P G :=
  { mst := { params := p, grads := g, training := true,
             sched := { warmup := (tdl_len : ℚ) / 10,
                        total := tdl_len * num_epoch, count := 0 } },
    best := (0, 0), l_epo := [], l_acc := [] }

/-- Whole run, Instructor.run (main.py lines 82-123): load the data,
build the scheduler with num_warmup_steps = 0.1 * len(train_dataloader)
and num_training_steps = len(train_dataloader) * num_epoch, initialize
best_loss, best_acc = 0, 0 and the plot lists, iterate the epoch loop
over range(num_epoch), then log the best snapshot, log the saved-log
line, plot l_acc against l_epo and save the figure to image.png.  The
final state is none when an epoch crashed. -/
def run {I P G : Type} (env : Env I P G)
    (train_dl test_dl : List (I × List ℕ)) (num_epoch : ℕ)
    (params0 : P) (grads0 : G) : Option (LoopSt P G) × List Ev :=
  let r := epochLoop env train_dl test_dl (List.range num_epoch)
    (runStart train_dl.length num_epoch params0 grads0)
  if r.2.2 then (none, Ev.loadData :: r.2.1)
  else
    (some r.1,
     Ev.loadData :: r.2.1 ++
      [.logBest r.1.best.2 r.1.best.1, .logSaved,
       .plot (r.1.l_epo.zip r.1.l_acc), .savefig "image.png", .showPlot])

/-- Whole program, the __main__ block of main.py: construct the
Instructor (which never calls load_data) and, only when construction
succeeds, call run, whose first action is load_data.  Only the event
trace is returned. -/
def mainTrace {I P G : Type} (env : Env I P G)
    (model_name method_name : String)
    (train_dl test_dl : List (I × List ℕ)) (num_epoch : ℕ)
    (params0 : P) (grads0 : G) : List Ev :=
  match instructorInit model_name method_name with
  | .error _ => []
  | .ok _ => (run env train_dl test_dl num_epoch params0 grads0).2

/-- Domination order underlying the best-snapshot rule: x is at least as
good as y when x has strictly higher accuracy, or equal accuracy and at
most the loss of y. -/
def dom (x y : ℚ × ℚ) : Prop :=
  y.1 < x.1 ∨ (y.1 = x.1 ∧ x.2 ≤ y.2)

theorem dom_refl (x : ℚ × ℚ) : dom x x := Or.inr ⟨rfl, le_refl _⟩

theorem dom_trans {x y z : ℚ × ℚ} (hxy : dom x y) (hyz : dom y z) :
    dom x z := by
  rcases hxy with h1 | ⟨h1, h1'⟩ <;> rcases hyz with h2 | ⟨h2, h2'⟩
  · exact Or.inl (h2.trans h1)
  · exact Or.inl (h2 ▸ h1)
  · exact Or.inl (h1 ▸ h2)
  · exact Or.inr ⟨h2.trans h1, h1'.trans h2'⟩

theorem dom_antisymm {x y : ℚ × ℚ} (hxy : dom x y) (hyx : dom y x) :
    x = y := by
  rcases hxy with h1 | ⟨h1, h1'⟩ <;> rcases hyx with h2 | ⟨h2, h2'⟩
  · exact absurd (h1.trans h2) (lt_irrefl _)
  · exact absurd h1 (h2 ▸ lt_irrefl _)
  · exact absurd h2 (h1 ▸ lt_irrefl _)
  · exact Prod.ext h2 (le_antisymm h1' h2')

theorem updateBest_dom_left (b r : ℚ × ℚ) : dom (updateBest b r) b := by
  unfold updateBest
  split
  · next h =>
    rcases h with h | ⟨h, h'⟩
    · exact Or.inl h
    · exact Or.inr ⟨h.symm, le_of_lt h'⟩
  · exact dom_refl b

theorem updateBest_dom_right (b r : ℚ × ℚ) : dom (updateBest b r) r := by
  unfold updateBest
  split
  · exact dom_refl r
  · next h =>
    push_neg at h
    rcases lt_or_eq_of_le h.1 with h1 | h1
    · exact Or.inl h1
    · exact Or.inr ⟨h1, h.2 h1⟩

theorem updateBest_eq_or (b r : ℚ × ℚ) :
    updateBest b r = b ∨ updateBest b r = r := by
  unfold updateBest; split
  · exact Or.inr rfl
  · exact Or.inl rfl

theorem foldl_updateBest_mem (b : ℚ × ℚ) (rs : List (ℚ × ℚ)) :
    rs.foldl updateBest b = b ∨ rs.foldl updateBest b ∈ rs := by
  induction rs generalizing b with
  | nil => exact Or.inl rfl
  | cons r rs ih =>
    rw [List.foldl_cons]
    rcases ih (updateBest b r) with h | h
    · rw [h]
      rcases updateBest_eq_or b r with h' | h'
      · exact Or.inl h'
      · exact Or.inr (by rw [h']; exact List.mem_cons_self r rs)
    · exact Or.inr (List.mem_cons_of_mem r h)

theorem foldl_updateBest_dom (b : ℚ × ℚ) (rs : List (ℚ × ℚ)) :
    dom (rs.foldl updateBest b) b ∧
      ∀ r ∈ rs, dom (rs.foldl updateBest b) r := by
  induction rs generalizing b with
  | nil => exact ⟨dom_refl b, by simp⟩
  | cons r rs ih =>
    rw [List.foldl_cons]
    obtain ⟨hb, hall⟩ := ih (updateBest b r)
    refine ⟨dom_trans hb (updateBest_dom_left b r), ?_⟩
    intro x hx
    rcases List.mem_cons.mp hx with h | h
    · subst h
      exact dom_trans hb (updateBest_dom_right b x)
    · exact hall x h

theorem foldl_updateBest_fst_le (b : ℚ × ℚ) (rs : List (ℚ × ℚ)) :
    b.1 ≤ (rs.foldl updateBest b).1 := by
  rcases (foldl_updateBest_dom b rs).1 with h | ⟨h, _⟩
  · exact le_of_lt h
  · exact le_of_eq h

theorem bestSnapshot_mem (rs : List (ℚ × ℚ)) (h : ∃ r ∈ rs, 0 < r.1) :
    bestSnapshot rs ∈ rs := by
  obtain ⟨r0, hr0, hr0pos⟩ := h
  rcases foldl_updateBest_mem (0, 0) rs with hb | hb
  · exfalso
    rcases (foldl_updateBest_dom (0, 0) rs).2 r0 hr0 with hlt | ⟨heq, -⟩
    · rw [hb] at hlt
      exact absurd (hr0pos.trans hlt) (lt_irrefl _)
    · have h0 : r0.1 = 0 := by rw [hb] at heq; exact heq
      rw [h0] at hr0pos
      exact lt_irrefl _ hr0pos
  · exact hb

theorem specBest_eq_bestSnapshot (rs : List (ℚ × ℚ))
    (h : ∃ r ∈ rs, 0 < r.1) :
    specBest rs = some (bestSnapshot rs) := by
  have hmemx : bestSnapshot rs ∈ rs := bestSnapshot_mem rs h
  have hallx := (foldl_updateBest_dom (0, 0) rs).2
  cases rs with
  | nil => cases hmemx
  | cons r1 rs' =>
    have hy := foldl_updateBest_dom r1 rs'
    have hdomyx : dom (rs'.foldl updateBest r1) (bestSnapshot (r1 :: rs')) := by
      rcases List.mem_cons.mp hmemx with hx | hx
      · rw [hx]
        exact hy.1
      · exact hy.2 _ hx
    have hdomxy : dom (bestSnapshot (r1 :: rs')) (rs'.foldl updateBest r1) := by
      rcases foldl_updateBest_mem r1 rs' with hyy | hyy
      · rw [hyy]
        exact hallx r1 (List.mem_cons_self r1 rs')
      · exact hallx _ (List.mem_cons_of_mem r1 hyy)
    show some (rs'.foldl updateBest r1) = some (bestSnapshot (r1 :: rs'))
    rw [dom_antisymm hdomyx hdomxy]

/-- C1, counterexample: with the code's initialization
best_loss, best_acc = 0, 0, the result sequence [(acc 0, loss 5)] (whose
maximum accuracy is 0) leaves the snapshot at (0, 0), which is not an
element of the sequence and differs from the sequence's
maximum-accuracy minimum-loss result (0, 5).  The claim as stated over
every result sequence is therefore false. -/
theorem bestSnapshot_c1_counterexample :
    bestSnapshot [((0 : ℚ), (5 : ℚ))] = (0, 0) ∧
      specBest [((0 : ℚ), (5 : ℚ))] = some (0, 5) ∧
      bestSnapshot [((0 : ℚ), (5 : ℚ))] ∉ [((0 : ℚ), (5 : ℚ))] := by
  refine ⟨?_, ?_, ?_⟩ <;> decide

/-- C1, amended: for every result sequence containing at least one epoch
with strictly positive test accuracy, the Best Snapshot after the last
epoch is an element of the sequence, it dominates every result of the
sequence (every other result has strictly lower accuracy, or equal
accuracy and at least its loss), and it coincides with the
spec-modelled maximum-accuracy minimum-loss selection; the update rule
itself (replace exactly on strictly higher accuracy, or equal accuracy
and strictly lower loss) is the definition updateBest taken verbatim
from the code. -/
theorem bestSnapshot_max_acc_min_loss (rs : List (ℚ × ℚ))
    (h : ∃ r ∈ rs, 0 < r.1) :
    bestSnapshot rs ∈ rs ∧ (∀ r ∈ rs, dom (bestSnapshot rs) r) ∧
      specBest rs = some (bestSnapshot rs) :=
  ⟨bestSnapshot_mem rs h, (foldl_updateBest_dom (0, 0) rs).2,
    specBest_eq_bestSnapshot rs h⟩

/-- C1, witness: the spec's own test vector
[(0.5, 1.0), (0.7, 0.8), (0.7, 0.5)] has positive maximum accuracy, so
the amended theorem applies to it. -/
theorem bestSnapshot_max_acc_min_loss_witness :
    bestSnapshot [((1 : ℚ)/2, (1 : ℚ)), (7/10, 4/5), (7/10, 1/2)] ∈
        [((1 : ℚ)/2, (1 : ℚ)), (7/10, 4/5), (7/10, 1/2)] ∧
      (∀ r ∈ [((1 : ℚ)/2, (1 : ℚ)), (7/10, 4/5), (7/10, 1/2)],
        dom (bestSnapshot [((1 : ℚ)/2, (1 : ℚ)), (7/10, 4/5), (7/10, 1/2)]) r) ∧
      specBest [((1 : ℚ)/2, (1 : ℚ)), (7/10, 4/5), (7/10, 1/2)] =
        some (bestSnapshot [((1 : ℚ)/2, (1 : ℚ)), (7/10, 4/5), (7/10, 1/2)]) :=
  bestSnapshot_max_acc_min_loss _ ⟨((1 : ℚ)/2, (1 : ℚ)), by simp, by norm_num⟩

/-- C10: the stored best accuracy is monotonically non-decreasing across
epochs: after any later prefix of the result sequence the first
component of the Best Snapshot is at least its value after any earlier
prefix. -/
theorem bestSnapshot_acc_monotone (rs : List (ℚ × ℚ)) (i j : ℕ)
    (hij : i ≤ j) :
    (bestSnapshot (rs.take i)).1 ≤ (bestSnapshot (rs.take j)).1 := by
  unfold bestSnapshot
  obtain ⟨k, rfl⟩ := Nat.exists_eq_add_of_le hij
  rw [List.take_add, List.foldl_append]
  exact foldl_updateBest_fst_le _ _

/-- C10, witness: monotonicity at a concrete sequence and epochs 1 and 2. -/
theorem bestSnapshot_acc_monotone_witness :
    (bestSnapshot ([((1 : ℚ), (2 : ℚ)), (1/2, 1)].take 1)).1 ≤
      (bestSnapshot ([((1 : ℚ), (2 : ℚ)), (1/2, 1)].take 2)).1 :=
  bestSnapshot_acc_monotone _ 1 2 (by decide)

/-- C2: on an empty batch stream both loops reach the final division
with an accumulated sample count of 0 and raise ZeroDivisionError
(result none); the pass does not complete with well-defined values, so
the guard the claim requires is indeed absent from the code. -/
theorem pass_empty_stream_zero_division {I P G : Type} (env : Env I P G)
    (st : MState P G) :
    (trainPass env st []).2.1 = none ∧ (testPass env st []).2.1 = none :=
  ⟨rfl, rfl⟩

/-- Per-batch statistics (raw loss, correct count, batch size) of a
training pass, replaying the state evolution of the loop. -/
def trainStats {I P G : Type} (env : Env I P G) :
    MState P G → List (I × List ℕ) → List (ℚ × ℕ × ℕ)
  | _, [] => []
  | st, b :: bs =>
    (trainBatch env st b).2.1 :: trainStats env (trainBatch env st b).1 bs

/-- Per-batch statistics of an evaluation pass. -/
def testStats {I P G : Type} (env : Env I P G) :
    MState P G → List (I × List ℕ) → List (ℚ × ℕ × ℕ)
  | _, [] => []
  | st, b :: bs =>
    (testBatch env st b).2.1 :: testStats env (testBatch env st b).1 bs

/-- Total loss weighted by batch size, sum of loss_i * size_i. -/
def weightedLoss (s : List (ℚ × ℕ × ℕ)) : ℚ :=
  (s.map (fun t => t.1 * (t.2.2 : ℚ))).sum

/-- Total correct count of a pass. -/
def totalCorrect (s : List (ℚ × ℕ × ℕ)) : ℕ := (s.map (fun t => t.2.1)).sum

/-- Total sample count of a pass. -/
def totalSize (s : List (ℚ × ℕ × ℕ)) : ℕ := (s.map (fun t => t.2.2)).sum

/-- Statistics of the batches processed by trainPass, which enters the
fold with training mode enabled. -/
def trainPassStats {I P G : Type} (env : Env I P G) (st : MState P G)
    (dl : List (I × List ℕ)) : List (ℚ × ℕ × ℕ) :=
  trainStats env { st with training := true } dl

/-- Statistics of the batches processed by testPass, which enters the
fold with training mode disabled. -/
def testPassStats {I P G : Type} (env : Env I P G) (st : MState P G)
    (dl : List (I × List ℕ)) : List (ℚ × ℕ × ℕ) :=
  testStats env { st with training := false } dl

theorem trainFold_eq {I P G : Type} (env : Env I P G)
    (dl : List (I × List ℕ)) :
    ∀ (st : MState P G) (acc : ℚ × ℕ × ℕ),
      (trainFold env st acc dl).2.1 =
        (acc.1 + weightedLoss (trainStats env st dl),
         acc.2.1 + totalCorrect (trainStats env st dl),
         acc.2.2 + totalSize (trainStats env st dl)) := by
  induction dl with
  | nil =>
    intro st acc
    simp [trainFold, trainStats, weightedLoss, totalCorrect, totalSize]
  | cons b bs ih =>
    intro st acc
    show (trainFold env (trainBatch env st b).1
        (acc.1 + (trainBatch env st b).2.1.1 * ((trainBatch env st b).2.1.2.2 : ℚ),
         acc.2.1 + (trainBatch env st b).2.1.2.1,
         acc.2.2 + (trainBatch env st b).2.1.2.2) bs).2.1 = _
    rw [ih]
    simp only [trainStats, weightedLoss, totalCorrect, totalSize,
      List.map_cons, List.sum_cons]
    refine Prod.ext ?_ (Prod.ext ?_ ?_) <;> simp <;> ring

theorem testFold_eq {I P G : Type} (env : Env I P G)
    (dl : List (I × List ℕ)) :
    ∀ (st : MState P G) (acc : ℚ × ℕ × ℕ),
      (testFold env st acc dl).2.1 =
        (acc.1 + weightedLoss (testStats env st dl),
         acc.2.1 + totalCorrect (testStats env st dl),
         acc.2.2 + totalSize (testStats env st dl)) := by
  induction dl with
  | nil =>
    intro st acc
    simp [testFold, testStats, weightedLoss, totalCorrect, totalSize]
  | cons b bs ih =>
    intro st acc
    show (testFold env (testBatch env st b).1
        (acc.1 + (testBatch env st b).2.1.1 * ((testBatch env st b).2.1.2.2 : ℚ),
         acc.2.1 + (testBatch env st b).2.1.2.1,
         acc.2.2 + (testBatch env st b).2.1.2.2) bs).2.1 = _
    rw [ih]
    simp only [testStats, weightedLoss, totalCorrect, totalSize,
      List.map_cons, List.sum_cons]
    refine Prod.ext ?_ (Prod.ext ?_ ?_) <;> simp <;> ring

theorem trainPass_result {I P G : Type} (env : Env I P G) (st : MState P G)
    (dl : List (I × List ℕ)) :
    (trainPass env st dl).2.1 =
      if totalSize (trainPassStats env st dl) = 0 then none
      else some
        (weightedLoss (trainPassStats env st dl) /
          (totalSize (trainPassStats env st dl) : ℚ),
         (totalCorrect (trainPassStats env st dl) : ℚ) /
          (totalSize (trainPassStats env st dl) : ℚ)) := by
  show (if ((trainFold env { st with training := true } (0, 0, 0) dl).2.1.2.2 = 0)
      then none else _) = _
  rw [trainFold_eq]
  simp [trainPassStats]

theorem testPass_result {I P G : Type} (env : Env I P G) (st : MState P G)
    (dl : List (I × List ℕ)) :
    (testPass env st dl).2.1 =
      if totalSize (testPassStats env st dl) = 0 then none
      else some
        (weightedLoss (testPassStats env st dl) /
          (totalSize (testPassStats env st dl) : ℚ),
         (totalCorrect (testPassStats env st dl) : ℚ) /
          (totalSize (testPassStats env st dl) : ℚ)) := by
  show (if ((testFold env { st with training := false } (0, 0, 0) dl).2.1.2.2 = 0)
      then none else _) = _
  rw [testFold_eq]
  simp [testPassStats]

theorem trainBatch_stats {I P G : Type} (env : Env I P G) (st : MState P G)
    (b : I × List ℕ) :
    (trainBatch env st b).2.1 =
      (env.criterion (env.forward st.params st.training (env.toDevice b.1)) b.2,
       countCorrect (env.forward st.params st.training (env.toDevice b.1)) b.2,
       b.2.length) := rfl

theorem testBatch_stats {I P G : Type} (env : Env I P G) (st : MState P G)
    (b : I × List ℕ) :
    (testBatch env st b).2.1 =
      (env.criterion (env.forward st.params st.training (env.toDevice b.1)) b.2,
       countCorrect (env.forward st.params st.training (env.toDevice b.1)) b.2,
       b.2.length) := rfl

theorem totalCorrect_le_trainStats {I P G : Type} (env : Env I P G)
    (dl : List (I × List ℕ)) :
    ∀ st : MState P G,
      totalCorrect (trainStats env st dl) ≤ totalSize (trainStats env st dl) := by
  induction dl with
  | nil => intro st; simp [trainStats, totalCorrect, totalSize]
  | cons b bs ih =>
    intro st
    simp only [trainStats, totalCorrect, totalSize, List.map_cons,
      List.sum_cons, trainBatch_stats]
    exact Nat.add_le_add (countCorrect_le _ _) (ih _)

theorem totalCorrect_le_testStats {I P G : Type} (env : Env I P G)
    (dl : List (I × List ℕ)) :
    ∀ st : MState P G,
      totalCorrect (testStats env st dl) ≤ totalSize (testStats env st dl) := by
  induction dl with
  | nil => intro st; simp [testStats, totalCorrect, totalSize]
  | cons b bs ih =>
    intro st
    simp only [testStats, totalCorrect, totalSize, List.map_cons,
      List.sum_cons, testBatch_stats]
    exact Nat.add_le_add (countCorrect_le _ _) (ih _)

/-- C3: over every batch stream with a positive total sample count, one
training pass returns mean loss sum(loss_i * size_i) / sum(size_i) (and
accuracy correct / total), and one evaluation pass does the same: the
per-batch losses are accumulated weighted by batch size and normalized
by the total sample count at the end of the pass. -/
theorem pass_mean_loss_weighted {I P G : Type} (env : Env I P G)
    (st : MState P G) (train_dl test_dl : List (I × List ℕ))
    (ht : 0 < totalSize (trainPassStats env st train_dl))
    (he : 0 < totalSize (testPassStats env st test_dl)) :
    (trainPass env st train_dl).2.1 =
      some (weightedLoss (trainPassStats env st train_dl) /
          (totalSize (trainPassStats env st train_dl) : ℚ),
        (totalCorrect (trainPassStats env st train_dl) : ℚ) /
          (totalSize (trainPassStats env st train_dl) : ℚ)) ∧
    (testPass env st test_dl).2.1 =
      some (weightedLoss (testPassStats env st test_dl) /
          (totalSize (testPassStats env st test_dl) : ℚ),
        (totalCorrect (testPassStats env st test_dl) : ℚ) /
          (totalSize (testPassStats env st test_dl) : ℚ)) := by
  rw [trainPass_result, testPass_result, if_neg (Nat.pos_iff_ne_zero.mp ht),
    if_neg (Nat.pos_iff_ne_zero.mp he)]
  exact ⟨rfl, rfl⟩

/-- Trivial concrete environment used to evaluate the loops on closed
inputs: a two-class model always emitting the logit rows
[[1, 0], [0, 1]] and a constant criterion of 2. -/
def unitEnv : Env Unit Unit Unit where
  toDevice := id
  forward := fun _ _ _ => [[1, 0], [0, 1]]
  criterion := fun _ _ => 2
  grad := fun _ _ => ()
  addGrad := fun _ _ => ()
  zeroG := ()
  stepP := fun p _ _ => p

/-- Concrete initial machine state for the trivial environment. -/
def unitSt : MState Unit Unit :=
  { params := (), grads := (), training := false,
    sched := { warmup := 0, total := 0, count := 0 } }

/-- C3, witness: one batch of two samples under the trivial environment
has total sample count 2 greater than 0, so the theorem applies. -/
theorem pass_mean_loss_weighted_witness :
    (trainPass unitEnv unitSt [((), [0, 1])]).2.1 =
      some (weightedLoss (trainPassStats unitEnv unitSt [((), [0, 1])]) /
          (totalSize (trainPassStats unitEnv unitSt [((), [0, 1])]) : ℚ),
        (totalCorrect (trainPassStats unitEnv unitSt [((), [0, 1])]) : ℚ) /
          (totalSize (trainPassStats unitEnv unitSt [((), [0, 1])]) : ℚ)) ∧
    (testPass unitEnv unitSt [((), [0, 1])]).2.1 =
      some (weightedLoss (testPassStats unitEnv unitSt [((), [0, 1])]) /
          (totalSize (testPassStats unitEnv unitSt [((), [0, 1])]) : ℚ),
        (totalCorrect (testPassStats unitEnv unitSt [((), [0, 1])]) : ℚ) /
          (totalSize (testPassStats unitEnv unitSt [((), [0, 1])]) : ℚ)) :=
  pass_mean_loss_weighted unitEnv unitSt [((), [0, 1])] [((), [0, 1])]
    (by decide) (by decide)

/-- C4: over every batch stream with a positive total sample count, the
accuracy returned by the training pass and by the evaluation pass lies
in [0, 1], because the per-batch correct count (matching argmax rows)
never exceeds the batch size. -/
theorem pass_accuracy_in_unit_interval {I P G : Type} (env : Env I P G)
    (st : MState P G) (train_dl test_dl : List (I × List ℕ))
    (ht : 0 < totalSize (trainPassStats env st train_dl))
    (he : 0 < totalSize (testPassStats env st test_dl)) :
    ∃ la lb : ℚ × ℚ,
      (trainPass env st train_dl).2.1 = some la ∧
      (testPass env st test_dl).2.1 = some lb ∧
      0 ≤ la.2 ∧ la.2 ≤ 1 ∧ 0 ≤ lb.2 ∧ lb.2 ≤ 1 := by
  have h1 := trainPass_result env st train_dl
  rw [if_neg (Nat.pos_iff_ne_zero.mp ht)] at h1
  have h2 := testPass_result env st test_dl
  rw [if_neg (Nat.pos_iff_ne_zero.mp he)] at h2
  refine ⟨_, _, h1, h2, ?_, ?_, ?_, ?_⟩
  · exact div_nonneg (Nat.cast_nonneg _) (Nat.cast_nonneg _)
  · exact (div_le_one (by exact_mod_cast ht)).mpr
      (by exact_mod_cast totalCorrect_le_trainStats env train_dl _)
  · exact div_nonneg (Nat.cast_nonneg _) (Nat.cast_nonneg _)
  · exact (div_le_one (by exact_mod_cast he)).mpr
      (by exact_mod_cast totalCorrect_le_testStats env test_dl _)

/-- C4, witness: the theorem applied to one batch of two samples under
the trivial environment. -/
theorem pass_accuracy_in_unit_interval_witness :
    ∃ la lb : ℚ × ℚ,
      (trainPass unitEnv unitSt [((), [0, 1])]).2.1 = some la ∧
      (testPass unitEnv unitSt [((), [0, 1])]).2.1 = some lb ∧
      0 ≤ la.2 ∧ la.2 ≤ 1 ∧ 0 ≤ lb.2 ∧ lb.2 ≤ 1 :=
  pass_accuracy_in_unit_interval unitEnv unitSt [((), [0, 1])]
    [((), [0, 1])] (by decide) (by decide)

theorem trainFold_trace {I P G : Type} (env : Env I P G)
    (dl : List (I × List ℕ)) :
    ∀ (st : MState P G) (acc : ℚ × ℕ × ℕ),
      (trainFold env st acc dl).2.2 =
        List.flatten (List.replicate dl.length
          [Ev.toDevice, Ev.forward, Ev.lossComp, Ev.zeroGrad, Ev.backward,
           Ev.optStep, Ev.schedStep, Ev.accum]) := by
  induction dl with
  | nil => intro st acc; rfl
  | cons b bs ih =>
    intro st acc
    simp only [trainFold]
    rw [ih]
    rfl

theorem testFold_trace {I P G : Type} (env : Env I P G)
    (dl : List (I × List ℕ)) :
    ∀ (st : MState P G) (acc : ℚ × ℕ × ℕ),
      (testFold env st acc dl).2.2 =
        List.flatten (List.replicate dl.length
          [Ev.toDevice, Ev.forward, Ev.lossComp, Ev.accum]) := by
  induction dl with
  | nil => intro st acc; rfl
  | cons b bs ih =>
    intro st acc
    simp only [testFold]
    rw [ih]
    rfl

/-- C6: in every training pass, each batch contributes exactly the event
sequence device move, forward, loss computation, gradient zeroing,
back-propagation, optimizer step, scheduler step, and only then the
accumulator update, repeated once per batch for the whole pass. -/
theorem trainPass_batch_event_order {I P G : Type} (env : Env I P G)
    (st : MState P G) (dl : List (I × List ℕ)) :
    (trainPass env st dl).2.2 =
      List.flatten (List.replicate dl.length
        [Ev.toDevice, Ev.forward, Ev.lossComp, Ev.zeroGrad, Ev.backward,
         Ev.optStep, Ev.schedStep, Ev.accum]) :=
  trainFold_trace env dl { st with training := true } (0, 0, 0)

theorem testFold_state {I P G : Type} (env : Env I P G)
    (dl : List (I × List ℕ)) :
    ∀ (st : MState P G) (acc : ℚ × ℕ × ℕ), (testFold env st acc dl).1 = st := by
  induction dl with
  | nil => intro st acc; rfl
  | cons b bs ih =>
    intro st acc
    simp only [testFold]
    rw [ih]
    rfl

/-- Logit rows computed for each batch of an evaluation pass, replaying
the state threading of the pass (the state is in evaluation mode from
the start of the pass on). -/
def testLogitsAux {I P G : Type} (env : Env I P G) :
    MState P G → List (I × List ℕ) → List (List (List ℚ))
  | _, [] => []
  | st, b :: bs =>
    env.forward st.params st.training (env.toDevice b.1) ::
      testLogitsAux env (testBatch env st b).1 bs

/-- Logits produced by one evaluation pass over a batch stream. -/
def testLogits {I P G : Type} (env : Env I P G) (st : MState P G)
    (dl : List (I × List ℕ)) : List (List (List ℚ)) :=
  testLogitsAux env { st with training := false } dl

/-- C7: the evaluation pass never mutates the trainable parameters, the
gradient buffers or the scheduler (no optimizer or schedule step, no
gradient tracking), and running it twice consecutively on the same
stream returns identical results and identical logits. -/
theorem testPass_pure {I P G : Type} (env : Env I P G) (st : MState P G)
    (dl : List (I × List ℕ)) :
    (testPass env st dl).1.params = st.params ∧
    (testPass env st dl).1.grads = st.grads ∧
    (testPass env st dl).1.sched = st.sched ∧
    testPass env (testPass env st dl).1 dl = testPass env st dl ∧
    testLogits env (testPass env st dl).1 dl = testLogits env st dl := by
  have hs : (testPass env st dl).1 = { st with training := false } :=
    testFold_state env dl { st with training := false } (0, 0, 0)
  rw [hs]
  exact ⟨rfl, rfl, rfl, rfl, rfl⟩

/-- C5: model construction succeeds exactly for model_name in
{bert, roberta} and method_name in {fnn, lstm}, raising ValueError
otherwise; and on the error path the whole program never reaches
load_data, since Instructor construction precedes Instructor.run. -/
theorem configuration_dispatch {I P G : Type} (env : Env I P G)
    (model_name method_name : String)
    (train_dl test_dl : List (I × List ℕ)) (num_epoch : ℕ) (p : P) (g : G) :
    ((∃ c, instructorInit model_name method_name = Except.ok c) ↔
      ((model_name = "bert" ∨ model_name = "roberta") ∧
       (method_name = "fnn" ∨ method_name = "lstm"))) ∧
    (¬((model_name = "bert" ∨ model_name = "roberta") ∧
        (method_name = "fnn" ∨ method_name = "lstm")) →
      Ev.loadData ∉ mainTrace env model_name method_name train_dl test_dl
        num_epoch p g) := by
  have hiff : (∃ c, instructorInit model_name method_name = Except.ok c) ↔
      ((model_name = "bert" ∨ model_name = "roberta") ∧
       (method_name = "fnn" ∨ method_name = "lstm")) := by
    unfold instructorInit
    by_cases h1 : model_name = "bert" <;> by_cases h2 : model_name = "roberta" <;>
      by_cases h3 : method_name = "fnn" <;> by_cases h4 : method_name = "lstm" <;>
      simp [h1, h2, h3, h4, bind, Except.bind, pure, Except.pure]
  refine ⟨hiff, fun hbad => ?_⟩
  cases hinit : instructorInit model_name method_name with
  | error e => simp [mainTrace, hinit]
  | ok c => exact absurd (hiff.mp ⟨c, hinit⟩) hbad

/-- C5, witness: the unrecognized model name gpt never reaches
load_data. -/
theorem configuration_dispatch_witness :
    Ev.loadData ∉ mainTrace unitEnv "gpt" "fnn" [] [] 0 () () :=
  (configuration_dispatch unitEnv "gpt" "fnn" [] [] 0 () ()).2 (by decide)

/-- Total number of samples of a batch stream, independent of any model
state. -/
def dlSize {I : Type} (dl : List (I × List ℕ)) : ℕ :=
  (dl.map (fun b => b.2.length)).sum

theorem totalSize_trainStats_eq {I P G : Type} (env : Env I P G)
    (dl : List (I × List ℕ)) :
    ∀ st : MState P G, totalSize (trainStats env st dl) = dlSize dl := by
  induction dl with
  | nil => intro st; rfl
  | cons b bs ih =>
    intro st
    simp only [trainStats, totalSize, List.map_cons, List.sum_cons,
      trainBatch_stats, dlSize]
    exact congrArg (b.2.length + ·) (ih _)

theorem totalSize_testStats_eq {I P G : Type} (env : Env I P G)
    (dl : List (I × List ℕ)) :
    ∀ st : MState P G, totalSize (testStats env st dl) = dlSize dl := by
  induction dl with
  | nil => intro st; rfl
  | cons b bs ih =>
    intro st
    simp only [testStats, totalSize, List.map_cons, List.sum_cons,
      testBatch_stats, dlSize]
    exact congrArg (b.2.length + ·) (ih _)

theorem totalSize_trainPassStats {I P G : Type} (env : Env I P G)
    (st : MState P G) (dl : List (I × List ℕ)) :
    totalSize (trainPassStats env st dl) = dlSize dl :=
  totalSize_trainStats_eq env dl _

theorem totalSize_testPassStats {I P G : Type} (env : Env I P G)
    (st : MState P G) (dl : List (I × List ℕ)) :
    totalSize (testPassStats env st dl) = dlSize dl :=
  totalSize_testStats_eq env dl _

theorem trainBatch_sched {I P G : Type} (env : Env I P G) (st : MState P G)
    (b : I × List ℕ) :
    (trainBatch env st b).1.sched =
      { st.sched with count := st.sched.count + 1 } := rfl

theorem trainFold_sched {I P G : Type} (env : Env I P G)
    (dl : List (I × List ℕ)) :
    ∀ (st : MState P G) (acc : ℚ × ℕ × ℕ),
      (trainFold env st acc dl).1.sched =
        { st.sched with count := st.sched.count + dl.length } := by
  induction dl with
  | nil => intro st acc; simp [trainFold]
  | cons b bs ih =>
    intro st acc
    simp only [trainFold]
    rw [ih, trainBatch_sched]
    simp only [List.length_cons, Scheduler.mk.injEq, true_and]
    omega

theorem trainPass_sched {I P G : Type} (env : Env I P G) (st : MState P G)
    (dl : List (I × List ℕ)) :
    (trainPass env st dl).1.sched =
      { st.sched with count := st.sched.count + dl.length } :=
  trainFold_sched env dl { st with training := true } (0, 0, 0)

theorem testPass_state {I P G : Type} (env : Env I P G) (st : MState P G)
    (dl : List (I × List ℕ)) :
    (testPass env st dl).1 = { st with training := false } :=
  testFold_state env dl { st with training := false } (0, 0, 0)

theorem trainPass_trace_no_persist {I P G : Type} (env : Env I P G)
    (st : MState P G) (dl : List (I × List ℕ)) :
    ∀ ev ∈ (trainPass env st dl).2.2, ev.isPersist = false := by
  intro ev hev
  have h : (trainPass env st dl).2.2 =
      List.flatten (List.replicate dl.length
        [Ev.toDevice, Ev.forward, Ev.lossComp, Ev.zeroGrad, Ev.backward,
         Ev.optStep, Ev.schedStep, Ev.accum]) :=
    trainFold_trace env dl { st with training := true } (0, 0, 0)
  rw [h, List.mem_flatten] at hev
  obtain ⟨l, hl, hev⟩ := hev
  rw [List.eq_of_mem_replicate hl] at hev
  fin_cases hev <;> rfl

theorem testPass_trace_no_persist {I P G : Type} (env : Env I P G)
    (st : MState P G) (dl : List (I × List ℕ)) :
    ∀ ev ∈ (testPass env st dl).2.2, ev.isPersist = false := by
  intro ev hev
  have h : (testPass env st dl).2.2 =
      List.flatten (List.replicate dl.length
        [Ev.toDevice, Ev.forward, Ev.lossComp, Ev.accum]) :=
    testFold_trace env dl { st with training := false } (0, 0, 0)
  rw [h, List.mem_flatten] at hev
  obtain ⟨l, hl, hev⟩ := hev
  rw [List.eq_of_mem_replicate hl] at hev
  fin_cases hev <;> rfl

theorem trainPass_some {I P G : Type} (env : Env I P G) (st : MState P G)
    (dl : List (I × List ℕ)) (h : 0 < dlSize dl) :
    (trainPass env st dl).2.1 =
      some (weightedLoss (trainPassStats env st dl) /
          (totalSize (trainPassStats env st dl) : ℚ),
        (totalCorrect (trainPassStats env st dl) : ℚ) /
          (totalSize (trainPassStats env st dl) : ℚ)) := by
  rw [trainPass_result, if_neg]
  rw [totalSize_trainPassStats]
  omega

theorem testPass_some {I P G : Type} (env : Env I P G) (st : MState P G)
    (dl : List (I × List ℕ)) (h : 0 < dlSize dl) :
    (testPass env st dl).2.1 =
      some (weightedLoss (testPassStats env st dl) /
          (totalSize (testPassStats env st dl) : ℚ),
        (totalCorrect (testPassStats env st dl) : ℚ) /
          (totalSize (testPassStats env st dl) : ℚ)) := by
  rw [testPass_result, if_neg]
  rw [totalSize_testPassStats]
  omega

theorem epochLoop_ok {I P G : Type} (env : Env I P G)
    (tdl sdl : List (I × List ℕ)) (ht : 0 < dlSize tdl)
    (he : 0 < dlSize sdl) :
    ∀ (es : List ℕ) (s : LoopSt P G),
      (epochLoop env tdl sdl es s).2.2 = false ∧
      (epochLoop env tdl sdl es s).1.l_epo = s.l_epo ++ es ∧
      (epochLoop env tdl sdl es s).1.l_acc.length =
        s.l_acc.length + es.length ∧
      (∀ ev ∈ (epochLoop env tdl sdl es s).2.1, ev.isPersist = false) ∧
      (epochLoop env tdl sdl es s).1.mst.sched =
        { s.mst.sched with
            count := s.mst.sched.count + es.length * tdl.length } := by
  intro es
  induction es with
  | nil =>
    intro s
    exact ⟨rfl, by simp [epochLoop], by simp [epochLoop],
      by simp [epochLoop], by simp [epochLoop]⟩
  | cons e es ih =>
    intro s
    have hla := trainPass_some env s.mst tdl ht
    have hlb := testPass_some env (trainPass env s.mst tdl).1 sdl he
    simp only [epochLoop, hla, hlb]
    refine ⟨(ih _).1, ?_, ?_, ?_, ?_⟩
    · rw [(ih _).2.1]
      simp
    · rw [(ih _).2.2.1]
      simp
      omega
    · intro ev hev
      rcases List.mem_append.mp hev with hev | hev
      · rcases List.mem_append.mp hev with hev | hev
        · rcases List.mem_append.mp hev with hev | hev
          · exact trainPass_trace_no_persist env _ tdl ev hev
          · exact testPass_trace_no_persist env _ sdl ev hev
        · fin_cases hev <;> rfl
      · exact (ih _).2.2.2.1 ev hev
    · rw [(ih _).2.2.2.2]
      simp only [testPass_state, trainPass_sched, List.length_cons]
      simp only [Scheduler.mk.injEq, true_and]
      ring

theorem run_ok {I P G : Type} (env : Env I P G)
    (tdl sdl : List (I × List ℕ)) (n : ℕ) (p : P) (g : G)
    (ht : 0 < dlSize tdl) (he : 0 < dlSize sdl) :
    run env tdl sdl n p g =
      (some (epochLoop env tdl sdl (List.range n)
          (runStart tdl.length n p g)).1,
       Ev.loadData ::
         (epochLoop env tdl sdl (List.range n)
           (runStart tdl.length n p g)).2.1 ++
         [Ev.logBest
            (epochLoop env tdl sdl (List.range n)
              (runStart tdl.length n p g)).1.best.2
            (epochLoop env tdl sdl (List.range n)
              (runStart tdl.length n p g)).1.best.1,
          Ev.logSaved,
          Ev.plot
            ((epochLoop env tdl sdl (List.range n)
              (runStart tdl.length n p g)).1.l_epo.zip
             (epochLoop env tdl sdl (List.range n)
               (runStart tdl.length n p g)).1.l_acc),
          Ev.savefig "image.png", Ev.showPlot]) := by
  have hcf := (epochLoop_ok env tdl sdl ht he (List.range n)
    (runStart tdl.length n p g)).1
  simp only [run, hcf, Bool.false_eq_true, if_false]

/-- C8: after the last epoch the run's event trace ends with logging the
Best Snapshot, logging the saved-log line, plotting the history points
(the epochs 0..num_epoch-1 zipped with one test accuracy per epoch, in
epoch order) and saving the figure to image.png; no event before that
tail persists anything, the only persistence event of the whole run is
the single savefig of image.png, and no model checkpoint is ever
saved. -/
theorem run_terminal_actions {I P G : Type} (env : Env I P G)
    (tdl sdl : List (I × List ℕ)) (n : ℕ) (p : P) (g : G)
    (ht : 0 < dlSize tdl) (he : 0 < dlSize sdl) :
    ∃ (s : LoopSt P G) (evs : List Ev),
      (run env tdl sdl n p g).1 = some s ∧
      s.l_epo = List.range n ∧
      s.l_acc.length = n ∧
      (run env tdl sdl n p g).2 =
        Ev.loadData :: evs ++
          [Ev.logBest s.best.2 s.best.1, Ev.logSaved,
           Ev.plot (s.l_epo.zip s.l_acc), Ev.savefig "image.png",
           Ev.showPlot] ∧
      (∀ ev ∈ evs, ev.isPersist = false) ∧
      (run env tdl sdl n p g).2.filter (fun ev => ev.isPersist) =
        [Ev.savefig "image.png"] ∧
      ∀ name, Ev.saveModel name ∉ (run env tdl sdl n p g).2 := by
  obtain ⟨-, hepo, hacc, hper, -⟩ :=
    epochLoop_ok env tdl sdl ht he (List.range n) (runStart tdl.length n p g)
  have hrun := run_ok env tdl sdl n p g ht he
  refine ⟨(epochLoop env tdl sdl (List.range n)
      (runStart tdl.length n p g)).1,
    (epochLoop env tdl sdl (List.range n) (runStart tdl.length n p g)).2.1,
    ?_, ?_, ?_, ?_, hper, ?_, ?_⟩
  · rw [hrun]
  · rw [hepo]
    simp [runStart]
  · rw [hacc]
    simp [runStart]
  · rw [hrun]
  · rw [hrun]
    simp only [List.cons_append, List.filter_cons, List.filter_append]
    rw [List.filter_eq_nil_iff.mpr (by intro ev hev; simp [hper ev hev])]
    rfl
  · intro name hmem
    rw [hrun] at hmem
    rcases List.mem_append.mp hmem with hmem | hmem
    · rcases List.mem_cons.mp hmem with hmem | hmem
      · cases hmem
      · have := hper _ hmem
        simp [Ev.isPersist] at this
    · simp at hmem

/-- C9: over a complete run the scheduler is stepped exactly once per
training batch: the final scheduler step count equals num_epoch times
the number of training batches, which is exactly the num_training_steps
value the scheduler was constructed with, and the scheduler was built
with num_warmup_steps equal to 0.1 times the batches per epoch. -/
theorem run_scheduler_steps {I P G : Type} (env : Env I P G)
    (tdl sdl : List (I × List ℕ)) (n : ℕ) (p : P) (g : G)
    (ht : 0 < dlSize tdl) (he : 0 < dlSize sdl) :
    ∃ s : LoopSt P G,
      (run env tdl sdl n p g).1 = some s ∧
      s.mst.sched.count = s.mst.sched.total ∧
      s.mst.sched.total = tdl.length * n ∧
      s.mst.sched.warmup = (tdl.length : ℚ) / 10 := by
  obtain ⟨-, -, -, -, hsched⟩ :=
    epochLoop_ok env tdl sdl ht he (List.range n) (runStart tdl.length n p g)
  have hrun := run_ok env tdl sdl n p g ht he
  refine ⟨(epochLoop env tdl sdl (List.range n)
      (runStart tdl.length n p g)).1, by rw [hrun], ?_, ?_, ?_⟩
  · rw [hsched]
    simp [runStart, Nat.mul_comm]
  · rw [hsched]
    simp [runStart]
  · rw [hsched]
    simp [runStart]

/-- C8, witness: a run of one epoch over singleton loaders. -/
theorem run_terminal_actions_witness :
    ∃ (s : LoopSt Unit Unit) (evs : List Ev),
      (run unitEnv [((), [0])] [((), [0])] 1 () ()).1 = some s ∧
      s.l_epo = List.range 1 ∧
      s.l_acc.length = 1 ∧
      (run unitEnv [((), [0])] [((), [0])] 1 () ()).2 =
        Ev.loadData :: evs ++
          [Ev.logBest s.best.2 s.best.1, Ev.logSaved,
           Ev.plot (s.l_epo.zip s.l_acc), Ev.savefig "image.png",
           Ev.showPlot] ∧
      (∀ ev ∈ evs, ev.isPersist = false) ∧
      (run unitEnv [((), [0])] [((), [0])] 1 () ()).2.filter
        (fun ev => ev.isPersist) = [Ev.savefig "image.png"] ∧
      ∀ name, Ev.saveModel name ∉ (run unitEnv [((), [0])] [((), [0])] 1 () ()).2 :=
  run_terminal_actions unitEnv [((), [0])] [((), [0])] 1 () ()
    (by decide) (by decide)

/-- C9, witness: a run of one epoch over singleton loaders. -/
theorem run_scheduler_steps_witness :
    ∃ s : LoopSt Unit Unit,
      (run unitEnv [((), [0])] [((), [0])] 1 () ()).1 = some s ∧
      s.mst.sched.count = s.mst.sched.total ∧
      s.mst.sched.total = [((), [0])].length * 1 ∧
      s.mst.sched.warmup = (([((), [0])].length : ℕ) : ℚ) / 10 :=
  run_scheduler_steps unitEnv [((), [0])] [((), [0])] 1 () ()
    (by decide) (by decide)

end SST2
